import Mathlib

/-!
Verification of the CodeOps Sentinel dashboard core: a shallow embedding of
the frontend state handlers (incident list, agent-status table, MCP call log,
execution plan, event feed, WebSocket backoff) together with the spec's
confidence gate, and proofs of the specified properties.

JavaScript objects whose fields may be `undefined` are embedded as structures
of `Option`-valued fields; object spread `\x7b ...e, ...d \x7d` becomes a
field-wise `Option.or` with the right operand's present fields overriding.
JavaScript object maps (string-keyed, insertion-ordered, unique keys) are
embedded as association lists with `lookupKey` / `setKey`.
-/

namespace CodeOpsSentinel

/-! ## Confidence gate (spec §4.2) -/

/-- Outcome of the confidence-evaluation step. -/
inductive Decision where
  | auto_fix : Decision
  | escalate : Decision
deriving DecidableEq, Repr

/-- Modelled from the spec: the confidence threshold is a configuration
constant of the backend orchestrator, which is not present under `src/`
(only the frontend that displays its decision is). Spec: threshold 0.70. -/
def CONFIDENCE_THRESHOLD : ℚ := 0.70

/-- Modelled from the spec: the backend Confidence Gate function is not
present under `src/`. Spec §4.2: `decide(confidence) = auto_fix if
confidence >= 0.70 else escalate`. -/
def decide (confidence : ℚ) : Decision :=
  if CONFIDENCE_THRESHOLD ≤ confidence then Decision.auto_fix else Decision.escalate

/-! ## Agent status table

`agentStatuses` in `App.jsx` / the second document of `config.js` is a JS
object keyed by agent name; each value is an agent-status object. -/

/-- One value of the `agentStatuses` map. Fields may be absent (`none`). -/
structure AgentStatus where
  agent_name : Option String
  status : Option String
  last_action : Option String
  last_action_time : Option String
  incidents_handled : Option Nat
deriving DecidableEq, Repr

/-- A JS object map embedded as an insertion-ordered association list. -/
abbrev AgentTable := List (String × AgentStatus)

/-- JS property read `m[k]` (keys are unique, first match wins). -/
def lookupKey : AgentTable → String → Option AgentStatus
  | [], _ => none
  | p :: rest, k => if p.1 = k then some p.2 else lookupKey rest k

/-- JS spread update `\x7b ...m, [k]: v \x7d`: replace the entry in place if
the key exists, otherwise append it at the end. -/
def setKey : AgentTable → String → AgentStatus → AgentTable
  | [], k, v => [(k, v)]
  | p :: rest, k, v => if p.1 = k then (k, v) :: rest else p :: setKey rest k v

/-- The value of `\x7b ...undefined \x7d`: an object with no fields present. -/
def emptyStatus : AgentStatus :=
  { agent_name := none, status := none, last_action := none,
    last_action_time := none, incidents_handled := none }

/-- Initial `agentStatuses` state (App.jsx lines 40-45 of the second
document of config.js). -/
def initialAgentStatuses : AgentTable :=
  [("monitor",
    { agent_name := some "monitor", status := some "idle", last_action := none,
      last_action_time := none, incidents_handled := some 0 }),
   ("diagnostic",
    { agent_name := some "diagnostic", status := some "idle", last_action := none,
      last_action_time := none, incidents_handled := some 0 }),
   ("fixer",
    { agent_name := some "fixer", status := some "idle", last_action := none,
      last_action_time := none, incidents_handled := some 0 }),
   ("deploy",
    { agent_name := some "deploy", status := some "idle", last_action := none,
      last_action_time := none, incidents_handled := some 0 })]

/-- The four fixed agent identities of the data model. -/
def fixedAgents : List String := ["monitor", "diagnostic", "fixer", "deploy"]

/-- The key set (in insertion order) of an agent table. -/
def tableKeys (m : AgentTable) : List String := m.map Prod.fst

/-- The `agent_activity` branch of `handleWsMessage`: set the named agent to
`working`, recording the action label and timestamp (config.js second
document, lines 170-181). -/
def applyAgentActivity (m : AgentTable) (agentName : String)
    (action ts : Option String) : AgentTable :=
  let base := (lookupKey m agentName).getD emptyStatus
  setKey m agentName
    { base with
      agent_name := some agentName
      status := some "working"
      last_action := action
      last_action_time := ts }

/-- Delay of the `setTimeout` that reverts an agent to idle (config.js
second document, line 187). -/
def AGENT_ACTIVITY_IDLE_DELAY_MS : Nat := 3000

/-- The body of that `setTimeout`: set only the named agent's status back to
`idle` (config.js second document, lines 182-187). -/
def revertAgentIdle (m : AgentTable) (agentName : String) : AgentTable :=
  let base := (lookupKey m agentName).getD emptyStatus
  setKey m agentName { base with status := some "idle" }

/-! ## MCP call log

`mcpEvents` in the second document of config.js: a list of the `data`
payloads of `mcp_call` / `mcp_response` WebSocket events. -/

/-- The `data` payload of an `mcp_call` / `mcp_response` event, and likewise
an entry of the `mcpEvents` log. Fields may be absent (`none`). -/
structure McpEntry where
  type : Option String
  call_id : Option String
  tool_name : Option String
  from_agent : Option String
  to_agent : Option String
  status : Option String
  result : Option String
deriving DecidableEq, Repr

/-- JS spread merge `\x7b ...e, ...d \x7d`: every field present in `d`
overrides the corresponding field of `e`. -/
def mergeMcp (e d : McpEntry) : McpEntry :=
  { type := d.type.or e.type
    call_id := d.call_id.or e.call_id
    tool_name := d.tool_name.or e.tool_name
    from_agent := d.from_agent.or e.from_agent
    to_agent := d.to_agent.or e.to_agent
    status := d.status.or e.status
    result := d.result.or e.result }

/-- JS `slice(-n)`: the suffix of the last `n` elements. -/
def takeLast (n : Nat) (l : List α) : List α := l.drop (l.length - n)

/-- `handleMcpCall` (config.js second document, lines 67-81): an `mcp_call`
appends its data unless the call identifier is already present, keeping the
last 200 entries; an `mcp_response` merges its data into every entry with
the same call identifier; other event types leave the log unchanged. -/
def handleMcpCall (log : List McpEntry) (event_type : String) (d : McpEntry) :
    List McpEntry :=
  if event_type = "mcp_call" then
    if log.any (fun e => e.call_id = d.call_id) then log
    else takeLast 200 (log ++ [d])
  else if event_type = "mcp_response" then
    log.map (fun e => if e.call_id = d.call_id then mergeMcp e d else e)
  else log

/-- The call-identifier column of the log. -/
def callIds (log : List McpEntry) : List (Option String) :=
  log.map (fun e => e.call_id)

/-- The log holds pairwise-distinct call identifiers. -/
def distinctCallIds (log : List McpEntry) : Prop :=
  (callIds log).Pairwise (fun a b => a ≠ b)

/-! ## Incident list -/

/-- An incident snapshot as carried by `state_transition` events and the
simulate / upsert paths. Fields may be absent (`none`). -/
structure Incident where
  id : Option String
  title : Option String
  severity : Option String
  service : Option String
  status : Option String
  outcome : Option String
deriving DecidableEq, Repr

/-- JS spread merge `\x7b ...old, ...upd \x7d` on incident objects. -/
def mergeIncident (old upd : Incident) : Incident :=
  { id := upd.id.or old.id
    title := upd.title.or old.title
    severity := upd.severity.or old.severity
    service := upd.service.or old.service
    status := upd.status.or old.status
    outcome := upd.outcome.or old.outcome }

/-- Replace the element at the given index by applying `f` (the JS pattern
`next[idx] = ...` after copying the array). -/
def updateAt : List α → Nat → (α → α) → List α
  | [], _, _ => []
  | x :: xs, 0, f => f x :: xs
  | x :: xs, n + 1, f => x :: updateAt xs n f

/-- The incident-list updater shared by the `state_transition` branch of
`handleWsMessage` (config.js second document, lines 157-167) and
`simulateIncident` (lines 270-274): `findIndex` by id, replace in place if
found, otherwise prepend. -/
def upsertIncident (prev : List Incident) (inc : Incident) : List Incident :=
  match prev.findIdx? (fun i => i.id = inc.id) with
  | some idx => updateAt prev idx (fun _ => inc)
  | none => inc :: prev

/-- `addOrUpdate` of the `useIncidents` hook (part_008 lines 54-67): ignore
incidents with a falsy id; otherwise `findIndex` by id, merge in place if
found, otherwise prepend. -/
def addOrUpdate (prev : List Incident) (inc : Incident) : List Incident :=
  if inc.id = none ∨ inc.id = some "" then prev
  else
    match prev.findIdx? (fun i => i.id = inc.id) with
    | some idx => updateAt prev idx (fun old => mergeIncident old inc)
    | none => inc :: prev

/-- The id column of the incident list. -/
def incidentIds (l : List Incident) : List (Option String) :=
  l.map (fun i => i.id)

/-- The incident list holds pairwise-distinct ids. -/
def distinctIds (l : List Incident) : Prop :=
  (incidentIds l).Pairwise (fun a b => a ≠ b)

/-! ## Execution plan -/

/-- One step of an execution plan. `step_num` is the 1-based step number. -/
structure PlanStep where
  step_num : Nat
  agent : Option String
  action : Option String
  tool : Option String
  status : Option String
  condition : Option String
  result : Option String
  skip_reason : Option String
deriving DecidableEq, Repr

/-- An execution plan as held in the `executionPlan` state. -/
structure ExecutionPlan where
  plan_id : Option String
  incident_id : Option String
  status : Option String
  current_step_num : Option Nat
  steps : List PlanStep
  replan_count : Option Nat
deriving DecidableEq, Repr

/-- The `plan_step_update` branch of `handlePlanEvent` (config.js second
document, lines 86-96): if no plan is displayed or the plan id differs, the
state is unchanged; otherwise status and current step number are taken from
the event and the step with the matching step number is replaced. -/
def applyPlanStepUpdate (prev : Option ExecutionPlan) (plan_id : Option String)
    (step : PlanStep) (plan_status : Option String) (csn : Option Nat) :
    Option ExecutionPlan :=
  match prev with
  | none => none
  | some p =>
    if p.plan_id ≠ plan_id then some p
    else
      some { p with
        status := plan_status
        current_step_num := csn
        steps := p.steps.map (fun s => if s.step_num = step.step_num then step else s) }

/-! ## Event feed -/

/-- A normalized entry of the general activity feed. -/
structure FeedEvent where
  type : Option String
  message : Option String
  timestamp : Option String
deriving DecidableEq, Repr

/-- `addEvent` (config.js second document, lines 61-63): prepend the event
and keep the first 100 entries. -/
def addEvent (prev : List FeedEvent) (e : FeedEvent) : List FeedEvent :=
  (e :: prev).take 100

/-! ## Whole-dashboard state and clearAll -/

/-- The state held by the `App` component (second document of config.js). -/
structure AppState where
  incidents : List Incident
  activeIncident : Option Incident
  events : List FeedEvent
  mcpEvents : List McpEntry
  executionPlan : Option ExecutionPlan
  agentStatuses : AgentTable

/-- The initial `App` state. -/
def initialAppState : AppState :=
  { incidents := []
    activeIncident := none
    events := []
    mcpEvents := []
    executionPlan := none
    agentStatuses := initialAgentStatuses }

/-- The agent-status part of `clearAll`: every entry keeps its key and other
fields but gets status `idle` and a cleared last action (config.js second
document, lines 291-293). -/
def clearAgentStatuses (m : AgentTable) : AgentTable :=
  m.map (fun p => (p.1, { p.2 with status := some "idle", last_action := none }))

/-- `clearAll` (config.js second document, lines 283-297): reset incidents,
active incident, event feed, MCP log and execution plan, and idle every
agent. -/
def clearAll (s : AppState) : AppState :=
  { incidents := []
    activeIncident := none
    events := []
    mcpEvents := []
    executionPlan := none
    agentStatuses := clearAgentStatuses s.agentStatuses }

/-! ## WebSocket reconnection backoff -/

/-- `INITIAL_BACKOFF` (useWebSocket.js line 3). -/
def INITIAL_BACKOFF : ℚ := 1000

/-- `MAX_BACKOFF` (useWebSocket.js line 4). -/
def MAX_BACKOFF : ℚ := 30000

/-- `BACKOFF_MULT` (useWebSocket.js line 5). -/
def BACKOFF_MULT : ℚ := 1.5

/-- The events that touch `backoffRef`. -/
inductive WsEvent where
  | wsOpen : WsEvent
  | wsCloseRetry : WsEvent
deriving DecidableEq, Repr

/-- The backoff update performed by `scheduleReconnect` (useWebSocket.js
line 71): multiply by 1.5, capped at the maximum. -/
def nextBackoff (b : ℚ) : ℚ := min (b * BACKOFF_MULT) MAX_BACKOFF

/-- The delay `scheduleReconnect` uses for the retry it schedules: the
current backoff, read before the update (useWebSocket.js line 70). -/
def retryDelay (b : ℚ) : ℚ := b

/-- How one event changes the stored backoff: a successful open resets it to
the initial value (useWebSocket.js line 38); a close schedules a retry and
advances the backoff (lines 68-75). -/
def wsStep (b : ℚ) : WsEvent → ℚ
  | WsEvent.wsOpen => INITIAL_BACKOFF
  | WsEvent.wsCloseRetry => nextBackoff b

/-- The stored backoff after a sequence of events, starting from the initial
value. -/
def backoffAfter (evs : List WsEvent) : ℚ :=
  evs.foldl wsStep INITIAL_BACKOFF

/-! ## Sample fixtures (concrete inputs used by witness theorems only) -/

/-- A concrete in-flight call entry with the given call identifier. -/
def sampleCall (cid : String) : McpEntry :=
  { type := some "mcp_call"
    call_id := some cid
    tool_name := some "monitor.get_metrics"
    from_agent := some "orchestrator"
    to_agent := some "monitor"
    status := some "in_progress"
    result := none }

/-- A concrete response entry with the given call identifier. -/
def sampleResponse (cid : String) : McpEntry :=
  { type := some "mcp_response"
    call_id := some cid
    tool_name := none
    from_agent := none
    to_agent := none
    status := some "success"
    result := some "ok" }

/-- A concrete incident with the given id. -/
def sampleIncident (iid : String) : Incident :=
  { id := some iid
    title := some "High CPU"
    severity := some "high"
    service := some "api"
    status := some "DETECTED"
    outcome := none }

/-- A concrete plan step with the given step number and status. -/
def sampleStep (n : Nat) (st : String) : PlanStep :=
  { step_num := n
    agent := some "monitor"
    action := some "collect metrics"
    tool := some "monitor.get_metrics"
    status := some st
    condition := none
    result := none
    skip_reason := none }

/-- A concrete two-step execution plan with the given plan id. -/
def samplePlan (pid : String) : ExecutionPlan :=
  { plan_id := some pid
    incident_id := some "inc-1"
    status := some "executing"
    current_step_num := some 1
    steps := [sampleStep 1 "in_progress", sampleStep 2 "pending"]
    replan_count := some 0 }

/-- A concrete feed event. -/
def sampleFeedEvent (msg : String) : FeedEvent :=
  { type := some "system"
    message := some msg
    timestamp := some "t0" }

/-! ## Theorems -/

/-- C1: the confidence gate is a pure total function of the confidence
score: on [0,1] it returns `auto_fix` exactly when the confidence is at
least the 0.70 threshold, and in particular decide 0.69 = escalate,
decide 0.70 = auto_fix, decide 1 = auto_fix, decide 0 = escalate. -/
theorem decide_confidence_gate (c : ℚ) (h0 : 0 ≤ c) (h1 : c ≤ 1) :
    (decide c = Decision.auto_fix ↔ CONFIDENCE_THRESHOLD ≤ c) ∧
    CONFIDENCE_THRESHOLD = 70 / 100 ∧
    decide (69 / 100) = Decision.escalate ∧
    decide (70 / 100) = Decision.auto_fix ∧
    decide 1 = Decision.auto_fix ∧
    decide 0 = Decision.escalate := by
  refine ⟨?_, by norm_num [CONFIDENCE_THRESHOLD], ?_, ?_, ?_, ?_⟩
  · unfold decide
    split_ifs with h <;> simp [h]
  · unfold decide CONFIDENCE_THRESHOLD
    rw [if_neg (by norm_num)]
  · unfold decide CONFIDENCE_THRESHOLD
    rw [if_pos (by norm_num)]
  · unfold decide CONFIDENCE_THRESHOLD
    rw [if_pos (by norm_num)]
  · unfold decide CONFIDENCE_THRESHOLD
    rw [if_neg (by norm_num)]

/-- Witness for C1 at the concrete confidence 0.85. -/
theorem decide_confidence_gate_witness :
    (decide (85 / 100) = Decision.auto_fix ↔ CONFIDENCE_THRESHOLD ≤ 85 / 100) ∧
    CONFIDENCE_THRESHOLD = 70 / 100 ∧
    decide (69 / 100) = Decision.escalate ∧
    decide (70 / 100) = Decision.auto_fix ∧
    decide 1 = Decision.auto_fix ∧
    decide 0 = Decision.escalate :=
  decide_confidence_gate (85 / 100) (by norm_num) (by norm_num)

/-! ### Agent-table helper lemmas -/

theorem lookupKey_setKey_self (m : AgentTable) (k : String) (v : AgentStatus) :
    lookupKey (setKey m k v) k = some v := by
  induction m with
  | nil => simp [setKey, lookupKey]
  | cons p rest ih =>
    by_cases h : p.1 = k
    · simp [setKey, h, lookupKey]
    · simp [setKey, h, lookupKey, ih]

theorem lookupKey_setKey_ne (m : AgentTable) (k : String) (v : AgentStatus)
    (q : String) (hq : q ≠ k) : lookupKey (setKey m k v) q = lookupKey m q := by
  induction m with
  | nil =>
    simp only [setKey, lookupKey]
    rw [if_neg (fun h => hq h.symm)]
  | cons p rest ih =>
    simp only [setKey]
    by_cases h : p.1 = k
    · rw [if_pos h]
      simp only [lookupKey]
      have h1 : ¬ k = q := fun hh => hq hh.symm
      have h2 : ¬ p.1 = q := by
        rw [h]
        exact h1
      rw [if_neg h1, if_neg h2]
    · rw [if_neg h]
      simp only [lookupKey]
      by_cases h2 : p.1 = q
      · rw [if_pos h2, if_pos h2]
      · rw [if_neg h2, if_neg h2, ih]

theorem tableKeys_setKey_mem (m : AgentTable) (k : String) (v : AgentStatus) :
    k ∈ tableKeys m → tableKeys (setKey m k v) = tableKeys m := by
  induction m with
  | nil =>
    intro h
    simp [tableKeys] at h
  | cons p rest ih =>
    intro h
    simp only [setKey]
    by_cases hp : p.1 = k
    · rw [if_pos hp]
      simp [tableKeys, hp]
    · rw [if_neg hp]
      have hk : k ∈ tableKeys rest := by
        simp only [tableKeys, List.map_cons, List.mem_cons] at h
        rcases h with h1 | h1
        · exact absurd h1.symm hp
        · simpa [tableKeys] using h1
      simp only [tableKeys, List.map_cons]
      have := ih hk
      simp only [tableKeys] at this
      rw [this]

theorem tableKeys_setKey_not_mem (m : AgentTable) (k : String) (v : AgentStatus) :
    k ∉ tableKeys m → tableKeys (setKey m k v) = tableKeys m ++ [k] := by
  induction m with
  | nil =>
    intro _
    simp [setKey, tableKeys]
  | cons p rest ih =>
    intro h
    have hp : p.1 ≠ k := by
      intro he
      exact h (by simp [tableKeys, he])
    have hk : k ∉ tableKeys rest := by
      intro hmem
      apply h
      simp only [tableKeys, List.map_cons, List.mem_cons]
      exact Or.inr (by simpa [tableKeys] using hmem)
    simp only [setKey]
    rw [if_neg hp]
    simp only [tableKeys, List.map_cons]
    have := ih hk
    simp only [tableKeys] at this
    rw [this]
    rfl

/-! ### Claim theorems for the agent table and clearAll -/

/-- C2: after clearAll, the incident list, active incident, event feed, MCP
call log and execution plan are all reset to their empty/initial values, and
every agent entry (the keys are preserved, so all four agents) has status
idle and a cleared last action, regardless of prior status. -/
theorem clearAll_resets (s : AppState) :
    (clearAll s).incidents = [] ∧
    (clearAll s).activeIncident = none ∧
    (clearAll s).events = [] ∧
    (clearAll s).mcpEvents = [] ∧
    (clearAll s).executionPlan = none ∧
    tableKeys (clearAll s).agentStatuses = tableKeys s.agentStatuses ∧
    ∀ p ∈ (clearAll s).agentStatuses,
      p.2.status = some "idle" ∧ p.2.last_action = none := by
  refine ⟨rfl, rfl, rfl, rfl, rfl, ?_, ?_⟩
  · simp [clearAll, clearAgentStatuses, tableKeys]
  · intro p hp
    simp only [clearAll, clearAgentStatuses, List.mem_map] at hp
    obtain ⟨q, _, rfl⟩ := hp
    exact ⟨rfl, rfl⟩

/-- Witness for C2 at a concrete state with a working agent and nonempty
logs. -/
theorem clearAll_resets_witness :
    (clearAll (AppState.mk
        [{ id := some "inc-1", title := some "t", severity := some "high",
           service := some "api", status := some "FIXING", outcome := none }]
        none
        [{ type := some "system", message := some "m", timestamp := some "0" }]
        [{ type := some "mcp_call", call_id := some "c1", tool_name := none,
           from_agent := none, to_agent := none, status := none, result := none }]
        none
        (applyAgentActivity initialAgentStatuses "fixer" (some "patch") (some "1")))).incidents
      = [] ∧
    ∀ p ∈ (clearAll (AppState.mk
        [{ id := some "inc-1", title := some "t", severity := some "high",
           service := some "api", status := some "FIXING", outcome := none }]
        none
        [{ type := some "system", message := some "m", timestamp := some "0" }]
        [{ type := some "mcp_call", call_id := some "c1", tool_name := none,
           from_agent := none, to_agent := none, status := none, result := none }]
        none
        (applyAgentActivity initialAgentStatuses "fixer" (some "patch") (some "1")))).agentStatuses,
      p.2.status = some "idle" ∧ p.2.last_action = none := by
  have h := clearAll_resets (AppState.mk
        [{ id := some "inc-1", title := some "t", severity := some "high",
           service := some "api", status := some "FIXING", outcome := none }]
        none
        [{ type := some "system", message := some "m", timestamp := some "0" }]
        [{ type := some "mcp_call", call_id := some "c1", tool_name := none,
           from_agent := none, to_agent := none, status := none, result := none }]
        none
        (applyAgentActivity initialAgentStatuses "fixer" (some "patch") (some "1")))
  exact ⟨h.1, h.2.2.2.2.2.2⟩

/-- C4 counterexample: one agent_activity event whose agent name is outside
the four fixed identities adds a fifth entry to the table, so the key set is
no longer exactly the four fixed agents. -/
theorem agent_table_rogue_counterexample :
    lookupKey (applyAgentActivity initialAgentStatuses "rogue"
        (some "hack") (some "t0")) "rogue" ≠ none ∧
    tableKeys (applyAgentActivity initialAgentStatuses "rogue"
        (some "hack") (some "t0")) ≠ fixedAgents := by
  constructor
  · decide
  · decide

/-- C4 amended: the table starts with exactly the four fixed agents, and
every agent-state update (agent_activity, the idle revert, clearAll)
preserves the key set when the event's agent name is already a key — in
particular any sequence of agent_activity events naming one of the four
keeps the table at exactly the four fixed identities — but an event naming
an unknown agent appends a new entry for that name. -/
theorem agent_table_fixed_keys (m : AgentTable) (a : String)
    (act ts : Option String) :
    tableKeys initialAgentStatuses = fixedAgents ∧
    (a ∈ tableKeys m → tableKeys (applyAgentActivity m a act ts) = tableKeys m) ∧
    (a ∉ tableKeys m →
      tableKeys (applyAgentActivity m a act ts) = tableKeys m ++ [a]) ∧
    (a ∈ tableKeys m → tableKeys (revertAgentIdle m a) = tableKeys m) ∧
    tableKeys (clearAgentStatuses m) = tableKeys m ∧
    (tableKeys m = fixedAgents → a ∈ fixedAgents →
      tableKeys (applyAgentActivity m a act ts) = fixedAgents) := by
  have happly : a ∈ tableKeys m →
      tableKeys (applyAgentActivity m a act ts) = tableKeys m :=
    fun h => tableKeys_setKey_mem m a _ h
  refine ⟨by decide, happly, ?_, ?_, ?_, ?_⟩
  · intro h
    exact tableKeys_setKey_not_mem m a _ h
  · intro h
    exact tableKeys_setKey_mem m a _ h
  · simp [clearAgentStatuses, tableKeys]
  · intro hkeys hmem
    rw [happly (by rw [hkeys]; exact hmem), hkeys]

/-- Witness for C4's amended claim: a monitor activity on the initial table
keeps the key set at the four fixed agents. -/
theorem agent_table_fixed_keys_witness :
    tableKeys initialAgentStatuses = fixedAgents ∧
    tableKeys (applyAgentActivity initialAgentStatuses "monitor"
      (some "scan") (some "t1")) = fixedAgents := by
  have h := agent_table_fixed_keys initialAgentStatuses "monitor"
    (some "scan") (some "t1")
  exact ⟨h.1, h.2.2.2.2.2 h.1 (by decide)⟩

/-- C6: an agent_activity event sets the named agent to working with the
event's action label recorded, the associated 3000 ms timeout reverts that
same agent to idle while keeping the recorded action, and both steps leave
every other agent's entry unchanged. -/
theorem agent_activity_lifecycle (m : AgentTable) (a : String)
    (act ts : Option String) :
    AGENT_ACTIVITY_IDLE_DELAY_MS = 3000 ∧
    (lookupKey (applyAgentActivity m a act ts) a).map AgentStatus.status
      = some (some "working") ∧
    (lookupKey (applyAgentActivity m a act ts) a).map AgentStatus.last_action
      = some act ∧
    (lookupKey (revertAgentIdle (applyAgentActivity m a act ts) a) a).map
        AgentStatus.status = some (some "idle") ∧
    (lookupKey (revertAgentIdle (applyAgentActivity m a act ts) a) a).map
        AgentStatus.last_action = some act ∧
    (∀ k, k ≠ a → lookupKey (applyAgentActivity m a act ts) k = lookupKey m k) ∧
    (∀ k, k ≠ a →
      lookupKey (revertAgentIdle (applyAgentActivity m a act ts) a) k
        = lookupKey m k) := by
  refine ⟨rfl, ?_, ?_, ?_, ?_, ?_, ?_⟩
  · rw [applyAgentActivity, lookupKey_setKey_self]
    rfl
  · rw [applyAgentActivity, lookupKey_setKey_self]
    rfl
  · rw [revertAgentIdle, applyAgentActivity, lookupKey_setKey_self,
      lookupKey_setKey_self]
    rfl
  · rw [revertAgentIdle, applyAgentActivity, lookupKey_setKey_self,
      lookupKey_setKey_self]
    rfl
  · intro k hk
    rw [applyAgentActivity, lookupKey_setKey_ne _ _ _ _ hk]
  · intro k hk
    rw [revertAgentIdle, lookupKey_setKey_ne _ _ _ _ hk,
      applyAgentActivity, lookupKey_setKey_ne _ _ _ _ hk]

/-- Witness for C6: fixer activity on the initial table, then the revert. -/
theorem agent_activity_lifecycle_witness :
    (lookupKey (applyAgentActivity initialAgentStatuses "fixer"
        (some "apply patch") (some "t2")) "fixer").map AgentStatus.status
      = some (some "working") ∧
    (lookupKey (revertAgentIdle (applyAgentActivity initialAgentStatuses "fixer"
        (some "apply patch") (some "t2")) "fixer") "fixer").map
        AgentStatus.status = some (some "idle") ∧
    lookupKey (revertAgentIdle (applyAgentActivity initialAgentStatuses "fixer"
        (some "apply patch") (some "t2")) "fixer") "monitor"
      = lookupKey initialAgentStatuses "monitor" := by
  have h := agent_activity_lifecycle initialAgentStatuses "fixer"
    (some "apply patch") (some "t2")
  exact ⟨h.2.1, h.2.2.2.1, h.2.2.2.2.2.2 "monitor" (by decide)⟩

/-! ### MCP call-log helper lemmas -/

theorem countP_le_one_of_pairwise_ne {α β : Type} [DecidableEq β]
    (f : α → β) (b : β) :
    ∀ l : List α, (l.map f).Pairwise (fun x y => x ≠ y) →
      l.countP (fun x => f x = b) ≤ 1 := by
  intro l
  induction l with
  | nil =>
    intro _
    simp
  | cons a l ih =>
    intro hl
    rw [List.map_cons, List.pairwise_cons] at hl
    rw [List.countP_cons]
    by_cases hab : f a = b
    · have hz : l.countP (fun x => f x = b) = 0 := by
        rw [List.countP_eq_zero]
        intro x hx
        simp only [decide_eq_true_eq]
        intro hfx
        exact hl.1 (f x) (List.mem_map_of_mem f hx) (hab.trans hfx.symm)
      simp [hz, hab]
    · have h1 := ih hl.2
      simp only [hab]
      simpa using h1

theorem handleMcpCall_response_eq (log : List McpEntry) (d : McpEntry) :
    handleMcpCall log "mcp_response" d =
      log.map (fun e => if e.call_id = d.call_id then mergeMcp e d else e) := by
  unfold handleMcpCall
  rw [if_neg (by decide), if_pos rfl]

theorem callIds_response_map (log : List McpEntry) (d : McpEntry) :
    callIds (log.map (fun e => if e.call_id = d.call_id then mergeMcp e d else e))
      = callIds log := by
  unfold callIds
  rw [List.map_map]
  apply List.map_congr_left
  intro e _
  simp only [Function.comp]
  by_cases h : e.call_id = d.call_id
  · rw [if_pos h]
    show (mergeMcp e d).call_id = e.call_id
    unfold mergeMcp
    simp only
    rw [h, Option.or_self]
  · rw [if_neg h]

theorem handleMcpCall_distinct (log : List McpEntry) (t : String) (d : McpEntry)
    (h : distinctCallIds log) : distinctCallIds (handleMcpCall log t d) := by
  unfold handleMcpCall
  split_ifs with h1 h2 h3
  · exact h
  · unfold distinctCallIds callIds at h ⊢
    unfold takeLast
    rw [List.map_drop]
    apply List.Pairwise.sublist (List.drop_sublist _ _)
    rw [List.map_append, List.pairwise_append]
    refine ⟨h, by simp, ?_⟩
    intro x hx y hy
    simp only [List.map_cons, List.map_nil, List.mem_singleton] at hy
    subst hy
    obtain ⟨e, he, rfl⟩ := List.mem_map.1 hx
    intro hcontr
    rw [Bool.not_eq_true, List.any_eq_false] at h2
    exact absurd (decide_eq_true hcontr) (by simpa using h2 e he)
  · unfold distinctCallIds at h ⊢
    rw [callIds_response_map log d]
    exact h
  · exact h

theorem foldl_handleMcpCall_distinct (msgs : List (String × McpEntry)) :
    ∀ acc : List McpEntry, distinctCallIds acc →
      distinctCallIds
        (msgs.foldl (fun acc mg => handleMcpCall acc mg.1 mg.2) acc) := by
  induction msgs with
  | nil =>
    intro acc h
    exact h
  | cons mg msgs ih =>
    intro acc h
    exact ih _ (handleMcpCall_distinct acc mg.1 mg.2 h)

/-! ### Claim theorems for the MCP call log -/

/-- C3: an mcp_response whose call identifier matches no entry leaves the
call log unchanged (it is dropped, not appended); in general the response
updates exactly the matching entries in place (same length, every
non-matching position unchanged, every matching position merged), and under
the pairwise-distinct-call-id invariant at most one entry matches. -/
theorem mcp_response_frame (log : List McpEntry) (d : McpEntry) :
    ((∀ e ∈ log, e.call_id ≠ d.call_id) →
      handleMcpCall log "mcp_response" d = log) ∧
    (handleMcpCall log "mcp_response" d).length = log.length ∧
    (∀ i : Nat, (handleMcpCall log "mcp_response" d)[i]? =
      (log[i]?).map (fun e => if e.call_id = d.call_id then mergeMcp e d else e)) ∧
    (distinctCallIds log →
      log.countP (fun e => e.call_id = d.call_id) ≤ 1) := by
  refine ⟨?_, ?_, ?_, ?_⟩
  · intro h
    rw [handleMcpCall_response_eq]
    have hid : ∀ e ∈ log,
        (if e.call_id = d.call_id then mergeMcp e d else e) = (fun e => e) e := by
      intro e he
      rw [if_neg (h e he)]
    rw [List.map_congr_left hid, List.map_id']
  · rw [handleMcpCall_response_eq, List.length_map]
  · intro i
    rw [handleMcpCall_response_eq, List.getElem?_map]
  · intro hdist
    unfold distinctCallIds callIds at hdist
    exact countP_le_one_of_pairwise_ne (fun e => e.call_id) d.call_id log hdist

/-- Witness for C3: a response with an unseen call id leaves a concrete
two-entry log unchanged, and that log has at most one match. -/
theorem mcp_response_frame_witness :
    handleMcpCall [sampleCall "a", sampleCall "b"] "mcp_response"
        (sampleResponse "c") = [sampleCall "a", sampleCall "b"] ∧
    [sampleCall "a", sampleCall "b"].countP
        (fun e => e.call_id = (sampleResponse "c").call_id) ≤ 1 := by
  have h := mcp_response_frame [sampleCall "a", sampleCall "b"] (sampleResponse "c")
  exact ⟨h.1 (by decide), h.2.2.2 (by unfold distinctCallIds callIds; decide)⟩

/-- C7: a second mcp_call carrying an already-seen call identifier is
ignored; every event preserves the pairwise-distinct-call-id invariant, so
starting from the empty log every event sequence yields a log with at most
one entry per call identifier. -/
theorem mcp_call_unique (log : List McpEntry) (t : String) (d : McpEntry) :
    ((∃ e ∈ log, e.call_id = d.call_id) →
      handleMcpCall log "mcp_call" d = log) ∧
    (distinctCallIds log → distinctCallIds (handleMcpCall log t d)) ∧
    (∀ msgs : List (String × McpEntry),
      distinctCallIds
        (msgs.foldl (fun acc mg => handleMcpCall acc mg.1 mg.2) [])) := by
  refine ⟨?_, fun h => handleMcpCall_distinct log t d h, ?_⟩
  · intro h
    obtain ⟨e, he, heq⟩ := h
    unfold handleMcpCall
    rw [if_pos rfl, if_pos (List.any_eq_true.mpr ⟨e, he, decide_eq_true heq⟩)]
  · intro msgs
    exact foldl_handleMcpCall_distinct msgs [] (by simp [distinctCallIds, callIds])

/-- Witness for C7: a duplicate of call id a is ignored on a concrete log,
which satisfies the distinct-call-id invariant. -/
theorem mcp_call_unique_witness :
    handleMcpCall [sampleCall "a", sampleCall "b"] "mcp_call" (sampleCall "a")
      = [sampleCall "a", sampleCall "b"] ∧
    distinctCallIds (handleMcpCall [sampleCall "a", sampleCall "b"]
      "mcp_response" (sampleResponse "a")) := by
  have h := mcp_call_unique [sampleCall "a", sampleCall "b"] "mcp_response"
    (sampleResponse "a")
  refine ⟨?_, h.2.1 (by unfold distinctCallIds callIds; decide)⟩
  exact (mcp_call_unique [sampleCall "a", sampleCall "b"] "mcp_call"
    (sampleCall "a")).1 ⟨sampleCall "a", by decide⟩

/-! ### Bounded-log helper lemmas -/

theorem take_append_take {α : Type} (n : Nat) (a b : List α) :
    (a ++ b.take n).take n = (a ++ b).take n := by
  rw [List.take_append_eq_append_take, List.take_append_eq_append_take,
    List.take_take]
  congr 1
  rw [Nat.min_eq_left (Nat.sub_le n a.length)]

theorem addEvent_foldl (evs : List FeedEvent) :
    ∀ init : List FeedEvent, init.length ≤ 100 →
      evs.foldl addEvent init = (evs.reverse ++ init).take 100 := by
  induction evs with
  | nil =>
    intro init h
    simp [List.take_of_length_le h]
  | cons e evs ih =>
    intro init h
    rw [List.foldl_cons,
      ih (addEvent init e) (List.length_take_le 100 (e :: init)),
      addEvent, take_append_take, List.reverse_cons, List.append_assoc,
      List.singleton_append]

theorem handleMcpCall_length_le (log : List McpEntry) (t : String) (d : McpEntry)
    (h : log.length ≤ 200) : (handleMcpCall log t d).length ≤ 200 := by
  unfold handleMcpCall
  split_ifs with h1 h2 h3
  · exact h
  · unfold takeLast
    simp only [List.length_drop, List.length_append, List.length_cons,
      List.length_nil]
    omega
  · rw [List.length_map]
    exact h
  · exact h

theorem foldl_handleMcpCall_length (msgs : List (String × McpEntry)) :
    ∀ init : List McpEntry, init.length ≤ 200 →
      (msgs.foldl (fun acc mg => handleMcpCall acc mg.1 mg.2) init).length
        ≤ 200 := by
  induction msgs with
  | nil =>
    intro init h
    exact h
  | cons mg msgs ih =>
    intro init h
    exact ih _ (handleMcpCall_length_le _ _ _ h)

/-! ### Claim theorem for the bounded logs -/

/-- C5: the event feed is bounded by 100 and holds exactly the most recent
entries (newest first); the MCP call log is bounded by 200 for every event
sequence, and an appended call keeps a suffix — the most recently added
entries — of the log. -/
theorem logs_bounded_most_recent (evs : List FeedEvent)
    (msgs : List (String × McpEntry)) (log : List McpEntry) (d : McpEntry) :
    (evs.foldl addEvent []).length ≤ 100 ∧
    evs.foldl addEvent [] = evs.reverse.take 100 ∧
    (msgs.foldl (fun acc mg => handleMcpCall acc mg.1 mg.2) []).length ≤ 200 ∧
    ((∀ e ∈ log, e.call_id ≠ d.call_id) →
      handleMcpCall log "mcp_call" d <:+ log ++ [d] ∧
      (handleMcpCall log "mcp_call" d).length = min (log.length + 1) 200) := by
  have hfeed := addEvent_foldl evs [] (by simp)
  refine ⟨?_, ?_, ?_, ?_⟩
  · rw [hfeed]
    exact List.length_take_le 100 _
  · rw [hfeed, List.append_nil]
  · exact foldl_handleMcpCall_length msgs [] (by simp)
  · intro h
    have hany : ¬ (log.any (fun e => e.call_id = d.call_id) = true) := by
      rw [Bool.not_eq_true, List.any_eq_false]
      intro e he
      simpa using h e he
    have heq : handleMcpCall log "mcp_call" d = takeLast 200 (log ++ [d]) := by
      unfold handleMcpCall
      rw [if_pos rfl, if_neg hany]
    rw [heq]
    unfold takeLast
    refine ⟨List.drop_suffix _ _, ?_⟩
    simp only [List.length_drop, List.length_append, List.length_cons,
      List.length_nil]
    omega

/-- Witness for C5: three feed events fold to themselves newest-first, a
one-call message sequence stays within bounds, and appending a fresh call
to a concrete log keeps a suffix of the expected length. -/
theorem logs_bounded_most_recent_witness :
    [sampleFeedEvent "a", sampleFeedEvent "b", sampleFeedEvent "c"].foldl
        addEvent []
      = [sampleFeedEvent "c", sampleFeedEvent "b", sampleFeedEvent "a"] ∧
    handleMcpCall [sampleCall "a"] "mcp_call" (sampleCall "b")
        <:+ [sampleCall "a"] ++ [sampleCall "b"] ∧
    (handleMcpCall [sampleCall "a"] "mcp_call" (sampleCall "b")).length
      = min ([sampleCall "a"].length + 1) 200 := by
  have h := logs_bounded_most_recent
    [sampleFeedEvent "a", sampleFeedEvent "b", sampleFeedEvent "c"]
    [("mcp_call", sampleCall "a")] [sampleCall "a"] (sampleCall "b")
  have h4 := h.2.2.2 (by decide)
  exact ⟨by rw [h.2.1]; rfl, h4.1, h4.2⟩

/-! ### Incident-list helper lemmas -/

theorem length_updateAt {α : Type} (l : List α) (n : Nat) (f : α → α) :
    (updateAt l n f).length = l.length := by
  induction l generalizing n with
  | nil => rfl
  | cons x xs ih =>
    cases n with
    | zero => simp [updateAt]
    | succ n => simp [updateAt, ih]

theorem getElem?_updateAt_self {α : Type} (l : List α) (n : Nat) (f : α → α) :
    (updateAt l n f)[n]? = (l[n]?).map f := by
  induction l generalizing n with
  | nil => simp [updateAt]
  | cons x xs ih =>
    cases n with
    | zero => simp [updateAt]
    | succ n => simpa [updateAt] using ih n

theorem getElem?_updateAt_ne {α : Type} (l : List α) (n : Nat) (f : α → α)
    (j : Nat) (h : j ≠ n) : (updateAt l n f)[j]? = l[j]? := by
  induction l generalizing n j with
  | nil => simp [updateAt]
  | cons x xs ih =>
    cases n with
    | zero =>
      cases j with
      | zero => exact absurd rfl h
      | succ j => simp [updateAt]
    | succ n =>
      cases j with
      | zero => simp [updateAt]
      | succ j => simpa [updateAt] using ih n j (fun hh => h (by rw [hh]))

theorem incidentIds_updateAt (prev : List Incident) (idx : Nat)
    (f : Incident → Incident)
    (hlt : idx < prev.length)
    (hid : (f (prev.get ⟨idx, hlt⟩)).id = (prev.get ⟨idx, hlt⟩).id) :
    incidentIds (updateAt prev idx f) = incidentIds prev := by
  apply List.ext_getElem?
  intro j
  unfold incidentIds
  rw [List.getElem?_map, List.getElem?_map]
  by_cases hj : j = idx
  · subst hj
    rw [getElem?_updateAt_self, List.getElem?_eq_getElem hlt]
    simp only [Option.map_some']
    rw [show prev.get ⟨j, hlt⟩ = prev[j] from rfl] at hid
    rw [hid]
  · rw [getElem?_updateAt_ne _ _ _ _ hj]

/-! ### Claim theorem for the incident list -/

/-- C8: each upsert path keeps incident ids pairwise distinct: a matching id
is replaced in place (same length, position of the match gets the new or
merged incident, all other positions unchanged) and a new entry is prepended
only when no id matches; addOrUpdate additionally ignores incidents with a
falsy id. -/
theorem incident_upsert_unique (prev : List Incident) (inc : Incident) :
    (distinctIds prev → distinctIds (upsertIncident prev inc)) ∧
    (distinctIds prev → distinctIds (addOrUpdate prev inc)) ∧
    ((∃ i ∈ prev, i.id = inc.id) →
      (upsertIncident prev inc).length = prev.length) ∧
    ((∀ i ∈ prev, i.id ≠ inc.id) → upsertIncident prev inc = inc :: prev) ∧
    (∀ idx, prev.findIdx? (fun i => i.id = inc.id) = some idx →
      (upsertIncident prev inc)[idx]? = some inc ∧
      ∀ j, j ≠ idx → (upsertIncident prev inc)[j]? = prev[j]?) ∧
    ((inc.id = none ∨ inc.id = some "") → addOrUpdate prev inc = prev) ∧
    (¬ (inc.id = none ∨ inc.id = some "") → (∃ i ∈ prev, i.id = inc.id) →
      (addOrUpdate prev inc).length = prev.length) ∧
    (¬ (inc.id = none ∨ inc.id = some "") → (∀ i ∈ prev, i.id ≠ inc.id) →
      addOrUpdate prev inc = inc :: prev) := by
  have hnone_of_all : (∀ i ∈ prev, i.id ≠ inc.id) →
      prev.findIdx? (fun i => i.id = inc.id) = none := by
    intro h
    rw [List.findIdx?_eq_none_iff]
    intro x hx
    simpa using h x hx
  have hsome_of_ex : (∃ i ∈ prev, i.id = inc.id) →
      ∃ idx, prev.findIdx? (fun i => i.id = inc.id) = some idx := by
    intro h
    obtain ⟨e, he, heq⟩ := h
    refine ⟨prev.findIdx (fun i => i.id = inc.id), ?_⟩
    exact List.findIdx?_eq_some_of_exists ⟨e, he, decide_eq_true heq⟩
  have hpred_at : ∀ idx, prev.findIdx? (fun i => i.id = inc.id) = some idx →
      ∃ hlt : idx < prev.length, (prev.get ⟨idx, hlt⟩).id = inc.id := by
    intro idx hidx
    obtain ⟨hlt, hpred, _⟩ := List.findIdx?_eq_some_iff_getElem.mp hidx
    exact ⟨hlt, by simpa using hpred⟩
  have hids_upsert : ∀ idx, prev.findIdx? (fun i => i.id = inc.id) = some idx →
      incidentIds (upsertIncident prev inc) = incidentIds prev := by
    intro idx hidx
    obtain ⟨hlt, hpred⟩ := hpred_at idx hidx
    unfold upsertIncident
    rw [hidx]
    exact incidentIds_updateAt prev idx _ hlt (by simpa using hpred.symm)
  have hids_merge : ∀ idx, prev.findIdx? (fun i => i.id = inc.id) = some idx →
      incidentIds (updateAt prev idx (fun old => mergeIncident old inc))
        = incidentIds prev := by
    intro idx hidx
    obtain ⟨hlt, hpred⟩ := hpred_at idx hidx
    apply incidentIds_updateAt prev idx _ hlt
    show (mergeIncident (prev.get ⟨idx, hlt⟩) inc).id = (prev.get ⟨idx, hlt⟩).id
    unfold mergeIncident
    simp only
    rw [← hpred, Option.or_self]
  refine ⟨?_, ?_, ?_, ?_, ?_, ?_, ?_, ?_⟩
  · intro hd
    cases hfind : prev.findIdx? (fun i => i.id = inc.id) with
    | none =>
      unfold upsertIncident
      rw [hfind]
      unfold distinctIds incidentIds at hd ⊢
      rw [List.map_cons, List.pairwise_cons]
      refine ⟨?_, hd⟩
      intro y hy
      obtain ⟨e, he, rfl⟩ := List.mem_map.1 hy
      have := List.findIdx?_eq_none_iff.mp hfind e he
      rw [decide_eq_false_iff_not] at this
      exact fun hh => this hh.symm
    | some idx =>
      unfold distinctIds
      rw [hids_upsert idx hfind]
      exact hd
  · intro hd
    by_cases hguard : inc.id = none ∨ inc.id = some ""
    · unfold addOrUpdate
      rw [if_pos hguard]
      exact hd
    · unfold addOrUpdate
      rw [if_neg hguard]
      cases hfind : prev.findIdx? (fun i => i.id = inc.id) with
      | none =>
        unfold distinctIds incidentIds at hd ⊢
        rw [List.map_cons, List.pairwise_cons]
        refine ⟨?_, hd⟩
        intro y hy
        obtain ⟨e, he, rfl⟩ := List.mem_map.1 hy
        have := List.findIdx?_eq_none_iff.mp hfind e he
        rw [decide_eq_false_iff_not] at this
        exact fun hh => this hh.symm
      | some idx =>
        unfold distinctIds
        rw [hids_merge idx hfind]
        exact hd
  · intro hex
    obtain ⟨idx, hidx⟩ := hsome_of_ex hex
    unfold upsertIncident
    rw [hidx]
    exact length_updateAt prev idx _
  · intro hall
    unfold upsertIncident
    rw [hnone_of_all hall]
  · intro idx hidx
    obtain ⟨hlt, _⟩ := hpred_at idx hidx
    unfold upsertIncident
    rw [hidx]
    constructor
    · rw [getElem?_updateAt_self, List.getElem?_eq_getElem hlt]
      rfl
    · intro j hj
      exact getElem?_updateAt_ne _ _ _ _ hj
  · intro hguard
    unfold addOrUpdate
    rw [if_pos hguard]
  · intro hguard hex
    obtain ⟨idx, hidx⟩ := hsome_of_ex hex
    unfold addOrUpdate
    rw [if_neg hguard, hidx]
    exact length_updateAt prev idx _
  · intro hguard hall
    unfold addOrUpdate
    rw [if_neg hguard, hnone_of_all hall]

/-- Witness for C8: upserting a fresh incident prepends it; upserting an
incident with an already-present id keeps the length; a falsy id is
ignored. -/
theorem incident_upsert_unique_witness :
    upsertIncident [sampleIncident "inc-1"] (sampleIncident "inc-2")
      = [sampleIncident "inc-2", sampleIncident "inc-1"] ∧
    (upsertIncident [sampleIncident "inc-1"] (sampleIncident "inc-1")).length
      = [sampleIncident "inc-1"].length ∧
    distinctIds (addOrUpdate [sampleIncident "inc-1"] (sampleIncident "inc-1")) := by
  refine ⟨?_, ?_, ?_⟩
  · exact (incident_upsert_unique [sampleIncident "inc-1"]
      (sampleIncident "inc-2")).2.2.2.1 (by decide)
  · exact (incident_upsert_unique [sampleIncident "inc-1"]
      (sampleIncident "inc-1")).2.2.1 ⟨sampleIncident "inc-1", by decide⟩
  · exact (incident_upsert_unique [sampleIncident "inc-1"]
      (sampleIncident "inc-1")).2.1 (by unfold distinctIds incidentIds; decide)

/-! ### Claim theorem for plan step updates -/

/-- C9: a plan_step_update with no displayed plan, or with a plan id that
differs from the displayed plan, leaves the state unchanged; on a matching
plan id only status, current_step_num and the steps whose step number
equals the updated step's change — each position with a different step
number and every other plan field is unchanged — and under per-plan step
number uniqueness at most one step matches. -/
theorem plan_step_update_frame (pid : Option String) (step : PlanStep)
    (pstatus : Option String) (csn : Option Nat) :
    applyPlanStepUpdate none pid step pstatus csn = none ∧
    (∀ p : ExecutionPlan, p.plan_id ≠ pid →
      applyPlanStepUpdate (some p) pid step pstatus csn = some p) ∧
    (∀ p : ExecutionPlan, p.plan_id = pid →
      ∃ q : ExecutionPlan,
        applyPlanStepUpdate (some p) pid step pstatus csn = some q ∧
        q.plan_id = p.plan_id ∧
        q.incident_id = p.incident_id ∧
        q.replan_count = p.replan_count ∧
        q.status = pstatus ∧
        q.current_step_num = csn ∧
        q.steps.length = p.steps.length ∧
        (∀ i : Nat, q.steps[i]? = (p.steps[i]?).map
          (fun s => if s.step_num = step.step_num then step else s)) ∧
        (∀ s ∈ p.steps, s.step_num ≠ step.step_num → s ∈ q.steps) ∧
        ((p.steps.map (fun s => s.step_num)).Pairwise (fun a b => a ≠ b) →
          p.steps.countP (fun s => s.step_num = step.step_num) ≤ 1)) := by
  have hred : ∀ p : ExecutionPlan,
      applyPlanStepUpdate (some p) pid step pstatus csn =
        if p.plan_id ≠ pid then some p
        else some { p with
          status := pstatus
          current_step_num := csn
          steps := p.steps.map
            (fun s => if s.step_num = step.step_num then step else s) } :=
    fun p => rfl
  refine ⟨rfl, ?_, ?_⟩
  · intro p hp
    rw [hred p, if_pos hp]
  · intro p hp
    refine ⟨{ p with
        status := pstatus
        current_step_num := csn
        steps := p.steps.map
          (fun s => if s.step_num = step.step_num then step else s) },
      ?_, rfl, rfl, rfl, rfl, rfl, ?_, ?_, ?_, ?_⟩
    · rw [hred p, if_neg (not_not_intro hp)]
    · exact List.length_map _ _
    · intro i
      exact List.getElem?_map _ _ _
    · intro s hs hne
      exact List.mem_map.2 ⟨s, hs, if_neg hne⟩
    · intro hdist
      exact countP_le_one_of_pairwise_ne (fun s => s.step_num) step.step_num
        p.steps hdist

/-- Witness for C9: on a concrete two-step plan, a mismatched plan id leaves
the plan unchanged, and a matching update changes only step 1. -/
theorem plan_step_update_frame_witness :
    applyPlanStepUpdate (some (samplePlan "p1")) (some "p2")
        (sampleStep 1 "completed") (some "executing") (some 1)
      = some (samplePlan "p1") ∧
    ∃ q : ExecutionPlan,
      applyPlanStepUpdate (some (samplePlan "p1")) (some "p1")
          (sampleStep 1 "completed") (some "executing") (some 2) = some q ∧
      q.incident_id = (samplePlan "p1").incident_id ∧
      sampleStep 2 "pending" ∈ q.steps := by
  have h := plan_step_update_frame (some "p2") (sampleStep 1 "completed")
    (some "executing") (some 1)
  have h2 := plan_step_update_frame (some "p1") (sampleStep 1 "completed")
    (some "executing") (some 2)
  refine ⟨h.2.1 (samplePlan "p1") (by decide), ?_⟩
  obtain ⟨q, hq, _, hinc, _, _, _, _, _, hmem, _⟩ :=
    h2.2.2 (samplePlan "p1") rfl
  exact ⟨q, hq, hinc, hmem (sampleStep 2 "pending") (by decide) (by decide)⟩

/-! ### WebSocket backoff helper lemmas -/

theorem nextBackoff_bounds (b : ℚ) (h1 : 1000 ≤ b) (h2 : b ≤ 30000) :
    b ≤ nextBackoff b ∧ 1000 ≤ nextBackoff b ∧ nextBackoff b ≤ 30000 := by
  unfold nextBackoff BACKOFF_MULT MAX_BACKOFF
  refine ⟨le_min (by nlinarith) h2, le_min (by nlinarith) (by norm_num),
    min_le_right _ _⟩

theorem backoffAfter_bounds_aux (l : List WsEvent) :
    ∀ b : ℚ, 1000 ≤ b → b ≤ 30000 →
      1000 ≤ l.foldl wsStep b ∧ l.foldl wsStep b ≤ 30000 := by
  induction l with
  | nil =>
    intro b h1 h2
    exact ⟨h1, h2⟩
  | cons e l ih =>
    intro b h1 h2
    cases e with
    | wsOpen =>
      simp only [List.foldl_cons, wsStep]
      exact ih INITIAL_BACKOFF (by norm_num [INITIAL_BACKOFF])
        (by norm_num [INITIAL_BACKOFF])
    | wsCloseRetry =>
      obtain ⟨_, hb2, hb3⟩ := nextBackoff_bounds b h1 h2
      simp only [List.foldl_cons, wsStep]
      exact ih _ hb2 hb3

/-! ### Claim theorem for the WebSocket backoff -/

/-- C10: the reconnection backoff starts at 1000 ms, every reachable value
(hence every scheduled retry delay) lies in [1000 ms, 30000 ms], a retry
multiplies the next delay by 1.5 capped at 30000 ms so successive retry
delays without an intervening open are non-decreasing, and a successful
open resets the delay to 1000 ms. -/
theorem ws_backoff_bounds (evs : List WsEvent) (b : ℚ) :
    INITIAL_BACKOFF = 1000 ∧
    MAX_BACKOFF = 30000 ∧
    BACKOFF_MULT = 3 / 2 ∧
    (1000 ≤ backoffAfter evs ∧ backoffAfter evs ≤ 30000) ∧
    (1000 ≤ b → b ≤ 30000 →
      retryDelay b ≤ retryDelay (nextBackoff b) ∧
      1000 ≤ nextBackoff b ∧ nextBackoff b ≤ 30000) ∧
    wsStep b WsEvent.wsOpen = 1000 := by
  refine ⟨rfl, rfl, by norm_num [BACKOFF_MULT], ?_, ?_, rfl⟩
  · exact backoffAfter_bounds_aux evs INITIAL_BACKOFF
      (by norm_num [INITIAL_BACKOFF]) (by norm_num [INITIAL_BACKOFF])
  · intro h1 h2
    exact nextBackoff_bounds b h1 h2

/-- Witness for C10: two retries then an open, and the step at the initial
backoff. -/
theorem ws_backoff_bounds_witness :
    (1000 ≤ backoffAfter [WsEvent.wsCloseRetry, WsEvent.wsCloseRetry,
        WsEvent.wsOpen] ∧
      backoffAfter [WsEvent.wsCloseRetry, WsEvent.wsCloseRetry,
        WsEvent.wsOpen] ≤ 30000) ∧
    retryDelay 1000 ≤ retryDelay (nextBackoff 1000) ∧
    wsStep 1000 WsEvent.wsOpen = 1000 := by
  have h := ws_backoff_bounds [WsEvent.wsCloseRetry, WsEvent.wsCloseRetry,
    WsEvent.wsOpen] 1000
  exact ⟨h.2.2.2.1, (h.2.2.2.2.1 (by norm_num) (by norm_num)).1, h.2.2.2.2.2⟩

end CodeOpsSentinel
